import Mathlib

/-!
Verification of the authenticated watch-list data-access gateway
(`src-tauri/src/database.rs`).

Strings are modelled as `List Char` (`String.data` of the Rust `String`s).
Rust's `char::is_alphabetic` (the Unicode `Alphabetic` property) is kept
abstract as a parameter `isAlpha : Char → Bool`; every statement either
quantifies over it or is evaluated at ASCII inputs, where the first disjunct
of the code's filter (`c.is_ascii()`) makes the parameter irrelevant.
The Postgres store is modelled as a list of rows; each SQL round trip is an
explicit network event, and its possible failure is an explicit boolean
oracle supplied to the operation.
-/

set_option maxRecDepth 8000
set_option maxHeartbeats 2000000

/-! ### Characters used by the sanitizer and the patterns -/

/-- The character &lt; (escaped first by `sanitize_string`). -/
def ltC : Char := Char.ofNat 60

/-- The character &gt;. -/
def gtC : Char := Char.ofNat 62

/-- The ampersand character. -/
def ampC : Char := Char.ofNat 38

/-- The double-quote character. -/
def quotC : Char := Char.ofNat 34

/-- The apostrophe character. -/
def aposC : Char := Char.ofNat 39

/-- The forward-slash character. -/
def slashC : Char := Char.ofNat 47

/-- The hash character, introduced by the `&#x27;` and `&#x2F;` entities. -/
def hashC : Char := Char.ofNat 35

/-- Rust's `char::is_ascii`: code point at most `0x7F`. -/
def is_ascii (c : Char) : Bool := decide (c.toNat ≤ 127)

/-- Rust's `char::is_whitespace`: the Unicode `White_Space` property.
This is also the set matched by `\s` in the (Unicode-mode) regex patterns. -/
def rust_is_whitespace (c : Char) : Bool :=
  decide (c.toNat ∈ ([9, 10, 11, 12, 13, 32, 0x85, 0xA0, 0x1680,
      0x2028, 0x2029, 0x202F, 0x205F, 0x3000] : List Nat)
    ∨ (0x2000 ≤ c.toNat ∧ c.toNat ≤ 0x200A))

/-- Rust's `str::trim`: drop Unicode whitespace from both ends. -/
def rust_trim (l : List Char) : List Char :=
  ((l.dropWhile rust_is_whitespace).reverse.dropWhile rust_is_whitespace).reverse

/-- Rust's `str::len`: the UTF-8 byte length (used by `validate_name`). -/
def rust_str_len (l : List Char) : Nat :=
  (l.map Char.utf8Size).sum

/-- Rust's `str::replace` for a single-character pattern `c`, replacing every
occurrence by the string `r`. -/
def replace_char (c : Char) (r : List Char) (l : List Char) : List Char :=
  l.flatMap (fun x => if x = c then r else [x])

/-- The filter of `sanitize_string`: `c.is_ascii() || c.is_alphabetic()`,
with `is_alphabetic` abstract. -/
def keep_char (isAlpha : Char → Bool) (c : Char) : Bool :=
  is_ascii c || isAlpha c

/-- The function `sanitize_string` from `database.rs`: trim, then the six sequential
single-character `replace` passes (`<`, `>`, `&`, `"`, `'`, `/`, in the
source's order), then the ascii-or-alphabetic filter, then `take 200`. -/
def sanitize_string (isAlpha : Char → Bool) (input : List Char) : List Char :=
  ((replace_char slashC ("&#x2F;".data)
    (replace_char aposC ("&#x27;".data)
      (replace_char quotC ("&quot;".data)
        (replace_char ampC ("&amp;".data)
          (replace_char gtC ("&gt;".data)
            (replace_char ltC ("&lt;".data)
              (rust_trim input))))))).filter (keep_char isAlpha)).take 200

/-! ### Validation -/

/-- The character class of `NAME_PATTERN`:
`[a-zA-Z0-9\s\.,!?\-_()':;&]` (ASCII letters and digits, Unicode whitespace,
and the listed punctuation). -/
def name_allowed_char (c : Char) : Bool :=
  c.isAlpha || c.isDigit || rust_is_whitespace c ||
    decide (c ∈ ['.', ',', '!', '?', '-', '_', '(', ')', aposC, ':', ';', '&'])

/-- Matching against `NAME_PATTERN`: the anchored pattern `^[...]+$` matches iff the
text is nonempty and every character is in the class. -/
def name_pattern_matches (l : List Char) : Bool :=
  !l.isEmpty && l.all name_allowed_char

/-- The validation error enum of `database.rs` (message payloads included). -/
inductive ValidationError where
  | EmptyField (field : List Char)
  | TooLong (field : List Char) (maxLen : Nat)
  | InvalidRange (field : List Char) (value lo hi : Int)
  | InvalidCharacters (field : List Char)
  | TooManyItems (field : List Char) (maxItems : Nat)
  | InvalidMediaType (value : List Char)
  | AuthenticationRequired
  | DuplicateEntry (mediaType givenName : List Char)
deriving DecidableEq

instance {ε α : Type} [DecidableEq ε] [DecidableEq α] : DecidableEq (Except ε α) :=
  fun a b =>
    match a, b with
    | .ok x, .ok y =>
        if h : x = y then isTrue (by rw [h]) else isFalse (fun he => h (Except.ok.inj he))
    | .error x, .error y =>
        if h : x = y then isTrue (by rw [h]) else isFalse (fun he => h (Except.error.inj he))
    | .ok _, .error _ => isFalse (fun he => Except.noConfusion he)
    | .error _, .ok _ => isFalse (fun he => Except.noConfusion he)

/-- Digits of a natural number, as in Rust's `Display` for integers. -/
def natStr (n : Nat) : List Char := (toString n).data

/-- Decimal rendering of an integer. -/
def intStr (n : Int) : List Char := (toString n).data

/-- The `Display` implementation for `ValidationError`: the exact user-facing
message strings of the source. -/
def ValidationError.toMessage : ValidationError → List Char
  | .EmptyField f => f ++ (" cannot be empty".data)
  | .TooLong f m => f ++ (" cannot exceed ".data) ++ natStr m ++ (" characters".data)
  | .InvalidRange f v lo hi =>
      f ++ (" value ".data) ++ intStr v ++ (" is invalid. Must be between ".data)
        ++ intStr lo ++ (" and ".data) ++ intStr hi
  | .InvalidCharacters f =>
      f ++ (" contains invalid characters. Only letters, numbers, spaces, and basic punctuation are allowed".data)
  | .TooManyItems f m => f ++ (" cannot exceed ".data) ++ natStr m ++ (" items".data)
  | .InvalidMediaType v =>
      ("Invalid media type: ".data) ++ v ++ (". Must be \x27movie\x27 or \x27tv\x27".data)
  | .AuthenticationRequired => ("Authentication required. Please login first.".data)
  | .DuplicateEntry mt n =>
      ("A ".data) ++ mt ++ (" with the name \x27".data) ++ n
        ++ ("\x27 already exists in your watch list".data)

/-- The validator `validate_name`: trim, then the empty / byte-length / pattern checks,
in the source's order. -/
def validate_name (name : List Char) : Except ValidationError Unit :=
  let trimmed := rust_trim name
  if trimmed.isEmpty then .error (.EmptyField ("Name".data))
  else if 200 < rust_str_len trimmed then .error (.TooLong ("Name".data) 200)
  else if ¬ name_pattern_matches trimmed then .error (.InvalidCharacters ("Name".data))
  else .ok ()

/-- The validator `validate_rating`: the closed range `[1, 10]`. -/
def validate_rating (rating : Int) : Except ValidationError Unit :=
  if rating < 1 ∨ 10 < rating then .error (.InvalidRange ("Rating".data) rating 1 10)
  else .ok ()

/-- The validator `validate_ids_for_deletion`: non-empty, at most 100 entries, first
non-positive id (if any) reported as `InvalidRange` up to `i32::MAX`. -/
def validate_ids_for_deletion (ids : List Int) : Except ValidationError Unit :=
  if ids.isEmpty then .error (.EmptyField ("ID list".data))
  else if 100 < ids.length then .error (.TooManyItems ("ID list".data) 100)
  else
    match ids.find? (fun id => decide (id ≤ 0)) with
    | some id => .error (.InvalidRange ("ID".data) id 1 2147483647)
    | none => .ok ()

/-! ### Data model: items, session state, storage rows -/

/-- The `MediaType` enum. -/
inductive MediaType where
  | movie
  | tv
deriving DecidableEq

/-- The `Display` tag of a media type (`"movie"` / `"tv"`), used both for
storage and for the duplicate-check bind. -/
def MediaType.toStr : MediaType → List Char
  | .movie => ("movie".data)
  | .tv => ("tv".data)

/-- The label used in the `DuplicateEntry` message inside `insert_watch_item`
(note `"TV show"`, not the `Display` tag). -/
def media_type_label : MediaType → List Char
  | .movie => ("movie".data)
  | .tv => ("TV show".data)

/-- The entity `WatchListItem` as it crosses the command boundary. -/
structure WatchListItem where
  id : Option Int
  media_type : MediaType
  name : List Char
  rating : Int
  would_watch_again : Bool
deriving DecidableEq

/-- A stored row of the `watch_list` table. The `media_type` column is free
text (the schema does not constrain it to the two known tags). -/
structure DbRow where
  id : Int
  media_type : List Char
  name : List Char
  rating : Int
  would_watch_again : Bool
deriving DecidableEq

/-- A connection pool handle. -/
structure Pool where
  handle : Nat
deriving DecidableEq

/-- The session state `AppState` (`db: Mutex<Option<Pool>>`,
`authenticated: Mutex<bool>`). -/
structure AppState where
  db : Option Pool
  authenticated : Bool
deriving DecidableEq

/-- The initial state `AppState::new()`: no pool, not authenticated. -/
def AppState.new : AppState := ⟨none, false⟩

/-- The response type `AuthResponse`. -/
structure AuthResponse where
  success : Bool
  message : List Char
deriving DecidableEq

/-- The response type `DatabaseResponse` (the uniform structured response of the data ops). -/
structure DatabaseResponse where
  success : Bool
  message : List Char
  rows_affected : Nat
  data : Option (List WatchListItem)
deriving DecidableEq

/-- One network/storage round trip issued by an operation. -/
inductive NetCall where
  | connect
  | verify
  | selectAll
  | checkDup
  | insertRow
  | deleteRows (ids : List Int)
deriving DecidableEq

/-! ### SQL fragments used by the gateway, modelled over the row list -/

/-- Postgres `TRIM(x)`: strip space characters (U+0020) from both ends. -/
def sql_trim (l : List Char) : List Char :=
  ((l.dropWhile (fun c => c = ' ')).reverse.dropWhile (fun c => c = ' ')).reverse

/-- Postgres `LOWER(x)`, modelled as per-character lowercasing. -/
def sql_lower (l : List Char) : List Char := l.map Char.toLower

/-- SQL `LOWER(TRIM(x))`: the normalization key of the duplicate check. -/
def norm_key (l : List Char) : List Char := sql_lower (sql_trim l)

/-- The query `check_duplicate_exists`: `EXISTS(SELECT 1 FROM watch_list WHERE
LOWER(TRIM(name)) = LOWER(TRIM($1)) AND media_type = $2)`. -/
def check_duplicate_exists (rows : List DbRow) (name : List Char) (mt : MediaType) : Bool :=
  rows.any (fun r => decide (norm_key r.name = norm_key name) && decide (r.media_type = mt.toStr))

/-- Row ordering used by `ORDER BY id`. -/
def rowLe (a b : DbRow) : Prop := a.id ≤ b.id

instance : DecidableRel rowLe := fun a b => Int.decLe a.id b.id

instance : IsTotal DbRow rowLe := ⟨fun a b => Int.le_total a.id b.id⟩

instance : IsTrans DbRow rowLe := ⟨fun _ _ _ => Int.le_trans⟩

/-! ### The five commands -/

/-- The gate `get_authenticated_pool`: flag first, then the pool; either absence is
`AuthenticationRequired`. -/
def get_authenticated_pool (s : AppState) : Except ValidationError Pool :=
  if ¬ s.authenticated then .error .AuthenticationRequired
  else
    match s.db with
    | some p => .ok p
    | none => .error .AuthenticationRequired

/-- The command `authenticate`. The connection attempt and the permission test are
environment oracles: `conn` is what `create_connection` returns and
`verifyOk` whether `test_connection_and_permissions` succeeds. Returns the
response, the session state after the call, and the network calls made. -/
def authenticate (s : AppState) (username password : List Char)
    (conn : Except Unit Pool) (verifyOk : Bool) :
    AuthResponse × AppState × List NetCall :=
  if (rust_trim username).isEmpty then
    (⟨false, ("Username cannot be empty".data)⟩, s, [])
  else if (rust_trim password).isEmpty then
    (⟨false, ("Password cannot be empty".data)⟩, s, [])
  else
    match conn with
    | .error _ =>
        (⟨false, ("Authentication failed: Invalid username or password".data)⟩, s, [.connect])
    | .ok pool =>
        if verifyOk then
          (⟨true, ("Authentication successful".data)⟩, ⟨some pool, true⟩, [.connect, .verify])
        else
          (⟨false, ("Authentication failed: Insufficient database permissions or watch_list table not found".data)⟩,
            s, [.connect, .verify])

/-- The command `logout`: take the pool out, close it (the closed pool is returned as the
third component; `none` when no pool was held), clear the flag, report
success. -/
def logout (s : AppState) : AuthResponse × AppState × Option Pool :=
  (⟨true, ("Logged out successfully".data)⟩, AppState.new, s.db)

/-- The command `get_all_watch_items`. Here `rows` is the table contents; `fetchOk` is whether
the `SELECT` round trip succeeds. The query sorts by id and keeps at most
1000 rows; each row is mapped totally (unknown media tags become `movie`,
names re-sanitized). -/
def row_to_item (isAlpha : Char → Bool) (r : DbRow) : WatchListItem :=
  { id := some r.id
    media_type :=
      if r.media_type = ("movie".data) then .movie
      else if r.media_type = ("tv".data) then .tv
      else .movie
    name := sanitize_string isAlpha r.name
    rating := r.rating
    would_watch_again := r.would_watch_again }

def get_all_watch_items (isAlpha : Char → Bool) (s : AppState) (rows : List DbRow)
    (fetchOk : Bool) : DatabaseResponse × List NetCall :=
  match get_authenticated_pool s with
  | .error e => (⟨false, e.toMessage, 0, none⟩, [])
  | .ok _ =>
      if fetchOk then
        let fetched := (List.insertionSort rowLe rows).take 1000
        let items := fetched.map (row_to_item isAlpha)
        (⟨true, ("Retrieved ".data) ++ natStr items.length ++ (" items successfully".data),
          items.length, some items⟩, [.selectAll])
      else
        (⟨false, ("Failed to retrieve watch list items from database".data), 0, none⟩,
          [.selectAll])

/-- The validator `validate_watch_list_item`: `validate_name(&item.name)?;
validate_rating(item.rating)?` (name first, then rating). -/
def validate_watch_list_item (item : WatchListItem) : Except ValidationError Unit :=
  match validate_name item.name with
  | .error e => .error e
  | .ok _ => validate_rating item.rating

/-- The command `insert_watch_item`. Here `dupOk` / `insertOk` are whether the duplicate-check
and insert round trips succeed; `newId` is the store-assigned id. The
message of a failed insert is modelled as the source's generic class (the
permission/connection substring match depends on opaque driver text).
Returns the response, the table after the call, and the network calls. -/
def insert_watch_item (isAlpha : Char → Bool) (s : AppState) (item : WatchListItem)
    (rows : List DbRow) (dupOk insertOk : Bool) (newId : Int) :
    DatabaseResponse × List DbRow × List NetCall :=
  match get_authenticated_pool s with
  | .error e => (⟨false, e.toMessage, 0, none⟩, rows, [])
  | .ok _ =>
      match validate_watch_list_item item with
      | .error ve => (⟨false, ve.toMessage, 0, none⟩, rows, [])
      | .ok _ =>
          if item.rating < 1 ∨ 10 < item.rating then
            (⟨false, ("Rating must be between 1 and 10".data), 0, none⟩, rows, [])
          else if (rust_trim (sanitize_string isAlpha item.name)).isEmpty then
            (⟨false, ("Name cannot be empty".data), 0, none⟩, rows, [])
          else if ¬ dupOk then
            (⟨false, ("Failed to verify uniqueness. Please try again.".data), 0, none⟩,
              rows, [.checkDup])
          else if check_duplicate_exists rows (sanitize_string isAlpha item.name)
              item.media_type then
            (⟨false,
              (ValidationError.DuplicateEntry (media_type_label item.media_type)
                (sanitize_string isAlpha item.name)).toMessage,
              0, none⟩, rows, [.checkDup])
          else if insertOk then
            (⟨true, ("Item added to watch list successfully".data), 1, none⟩,
              rows ++ [⟨newId, item.media_type.toStr, sanitize_string isAlpha item.name,
                item.rating, item.would_watch_again⟩],
              [.checkDup, .insertRow])
          else
            (⟨false, ("Failed to add item to watch list.".data), 0, none⟩, rows,
              [.checkDup, .insertRow])

/-- Rust's `Vec::dedup`: collapse consecutive equal elements. -/
def rust_dedup : List Int → List Int
  | [] => []
  | [a] => [a]
  | a :: b :: rest =>
      if a = b then rust_dedup (b :: rest) else a :: rust_dedup (b :: rest)

/-- The id list actually bound into the `DELETE ... WHERE id IN (...)`
statement: `sort_unstable` then `dedup`. -/
def prepared_ids (ids : List Int) : List Int :=
  rust_dedup (List.insertionSort (fun a b : Int => a ≤ b) ids)

/-- The command `delete_watch_items`. Here `delOk` is whether the single parameterized delete
round trip succeeds. -/
def delete_watch_items (s : AppState) (ids : List Int) (rows : List DbRow)
    (delOk : Bool) : DatabaseResponse × List DbRow × List NetCall :=
  match get_authenticated_pool s with
  | .error e => (⟨false, e.toMessage, 0, none⟩, rows, [])
  | .ok _ =>
      match validate_ids_for_deletion ids with
      | .error ve => (⟨false, ve.toMessage, 0, none⟩, rows, [])
      | .ok _ =>
          let uniqueIds := prepared_ids ids
          if delOk then
            let deleted := rows.countP (fun r => decide (r.id ∈ uniqueIds))
            (⟨true,
              ("Successfully deleted ".data) ++ natStr deleted ++ (" item(s)".data),
              deleted, none⟩,
              rows.filter (fun r => decide (r.id ∉ uniqueIds)),
              [.deleteRows uniqueIds])
          else
            (⟨false, ("Failed to delete items from watch list".data), 0, none⟩, rows,
              [.deleteRows uniqueIds])

/-- The boundary deserialization of `WatchListItem.name`
(`deserialize_sanitized_string`) followed by the `insert_watch_item`
command: the full insert pipeline as seen by a caller sending a raw name. -/
def insert_item_command (isAlpha : Char → Bool) (s : AppState) (item : WatchListItem)
    (rows : List DbRow) (dupOk insertOk : Bool) (newId : Int) :
    DatabaseResponse × List DbRow × List NetCall :=
  insert_watch_item isAlpha s { item with name := sanitize_string isAlpha item.name }
    rows dupOk insertOk newId

/-! ### Sequences of operations

An `Op` is one invocation of a gateway command, bundled with the
environment oracles that invocation would observe (connection outcome,
round-trip successes, store-assigned id). `exec` threads the session state
and the table through a sequence and records every structured response
together with the network calls the operation made. -/

inductive Op where
  | auth (username password : List Char) (conn : Except Unit Pool) (verifyOk : Bool)
  | logoutOp
  | listOp (fetchOk : Bool)
  | insertOp (item : WatchListItem) (dupOk insertOk : Bool) (newId : Int)
  | deleteOp (ids : List Int) (delOk : Bool)

/-- The observable outcome of one operation: which kind of response it
returned and the network calls it performed. `authOut` is produced by
`authenticate` and `logout`; `dbOut` by the three data operations. -/
inductive OpOut where
  | authOut (r : AuthResponse) (calls : List NetCall)
  | dbOut (r : DatabaseResponse) (calls : List NetCall)
deriving DecidableEq

/-- Run one operation from a session state and table. -/
def step (isAlpha : Char → Bool) : AppState × List DbRow → Op →
    (AppState × List DbRow) × OpOut
  | (s, rows), .auth u p conn v =>
      (((authenticate s u p conn v).2.1, rows),
        .authOut (authenticate s u p conn v).1 (authenticate s u p conn v).2.2)
  | (s, rows), .logoutOp => (((logout s).2.1, rows), .authOut (logout s).1 [])
  | (s, rows), .listOp fetchOk =>
      ((s, rows),
        .dbOut (get_all_watch_items isAlpha s rows fetchOk).1
          (get_all_watch_items isAlpha s rows fetchOk).2)
  | (s, rows), .insertOp item dupOk insOk newId =>
      ((s, (insert_watch_item isAlpha s item rows dupOk insOk newId).2.1),
        .dbOut (insert_watch_item isAlpha s item rows dupOk insOk newId).1
          (insert_watch_item isAlpha s item rows dupOk insOk newId).2.2)
  | (s, rows), .deleteOp ids delOk =>
      ((s, (delete_watch_items s ids rows delOk).2.1),
        .dbOut (delete_watch_items s ids rows delOk).1
          (delete_watch_items s ids rows delOk).2.2)

/-- Run a sequence of operations, collecting every outcome in order. -/
def exec (isAlpha : Char → Bool) : AppState × List DbRow → List Op →
    (AppState × List DbRow) × List OpOut
  | st, [] => (st, [])
  | st, op :: ops =>
      ((exec isAlpha (step isAlpha st op).1 ops).1,
        (step isAlpha st op).2 :: (exec isAlpha (step isAlpha st op).1 ops).2)

/-! ### A per-character characterization of the sanitizer

`esc_full` is the net effect of the six sequential `replace` passes on one
input character (the `&` pass runs after the `<` and `>` passes, so their
entities are escaped a second time). `sanitize_string` is proved equal to
trim-then-`flatMap esc_full`-then-filter-then-truncate. -/

/-- The composed escaping map of the six `replace` passes. -/
def esc_full (x : Char) : List Char :=
  if x = ltC then ("&amp;lt;".data)
  else if x = gtC then ("&amp;gt;".data)
  else if x = ampC then ("&amp;".data)
  else if x = quotC then ("&quot;".data)
  else if x = aposC then ("&#x27;".data)
  else if x = slashC then ("&#x2F;".data)
  else [x]

/-- The six sequential `replace` passes of `sanitize_string`, as a function
of the trimmed text. -/
def esc_chain (m : List Char) : List Char :=
  replace_char slashC ("&#x2F;".data)
    (replace_char aposC ("&#x27;".data)
      (replace_char quotC ("&quot;".data)
        (replace_char ampC ("&amp;".data)
          (replace_char gtC ("&gt;".data)
            (replace_char ltC ("&lt;".data) m)))))

theorem replace_char_append (c : Char) (r a b : List Char) :
    replace_char c r (a ++ b) = replace_char c r a ++ replace_char c r b := by
  simp [replace_char]

theorem esc_chain_append (a b : List Char) :
    esc_chain (a ++ b) = esc_chain a ++ esc_chain b := by
  simp [esc_chain, replace_char_append]

theorem esc_chain_singleton (x : Char) : esc_chain [x] = esc_full x := by
  by_cases h1 : x = ltC
  · subst h1; decide
  by_cases h2 : x = gtC
  · subst h2; decide
  by_cases h3 : x = ampC
  · subst h3; decide
  by_cases h4 : x = quotC
  · subst h4; decide
  by_cases h5 : x = aposC
  · subst h5; decide
  by_cases h6 : x = slashC
  · subst h6; decide
  simp [esc_chain, replace_char, esc_full, h1, h2, h3, h4, h5, h6]

theorem esc_chain_eq_flatMap (m : List Char) : esc_chain m = m.flatMap esc_full := by
  induction m with
  | nil => rfl
  | cons x t ih =>
      have : (x :: t) = [x] ++ t := rfl
      rw [this, esc_chain_append, esc_chain_singleton, ih, List.flatMap_append]
      simp

/-- The sanitizer computed in one pass over the trimmed input. -/
theorem sanitize_eq_flatMap (isAlpha : Char → Bool) (l : List Char) :
    sanitize_string isAlpha l =
      (((rust_trim l).flatMap esc_full).filter (keep_char isAlpha)).take 200 := by
  have h : sanitize_string isAlpha l =
      ((esc_chain (rust_trim l)).filter (keep_char isAlpha)).take 200 := rfl
  rw [h, esc_chain_eq_flatMap]

theorem all_mem {p : Char → Bool} {l : List Char} (hall : l.all p = true) {c : Char}
    (hc : c ∈ l) : p c = true :=
  List.all_eq_true.mp hall c hc

/-- Every character the escape map emits is either an (ASCII) entity
character or the input character itself; in particular an ASCII input yields
only ASCII output. -/
theorem esc_full_ascii {x c : Char} (hx : is_ascii x = true) (h : c ∈ esc_full x) :
    is_ascii c = true := by
  unfold esc_full at h
  split at h
  · exact all_mem (by decide) h
  · split at h
    · exact all_mem (by decide) h
    · split at h
      · exact all_mem (by decide) h
      · split at h
        · exact all_mem (by decide) h
        · split at h
          · exact all_mem (by decide) h
          · split at h
            · exact all_mem (by decide) h
            · simp at h; subst h; exact hx

/-- Decidable form of the no-reintroduction property: a character is none
of the five replaced ones other than the ampersand. -/
def notSpecial5 (c : Char) : Bool :=
  decide (c ≠ ltC ∧ c ≠ gtC ∧ c ≠ quotC ∧ c ≠ aposC ∧ c ≠ slashC)

/-- The escape passes never emit `<`, `>`, `"`, `'` or `/`. -/
theorem esc_full_not_special {x c : Char} (h : c ∈ esc_full x) :
    c ≠ ltC ∧ c ≠ gtC ∧ c ≠ quotC ∧ c ≠ aposC ∧ c ≠ slashC := by
  unfold esc_full at h
  split at h
  · exact of_decide_eq_true (all_mem (p := notSpecial5) (by decide) h)
  · split at h
    · exact of_decide_eq_true (all_mem (p := notSpecial5) (by decide) h)
    · split at h
      · exact of_decide_eq_true (all_mem (p := notSpecial5) (by decide) h)
      · split at h
        · exact of_decide_eq_true (all_mem (p := notSpecial5) (by decide) h)
        · split at h
          · exact of_decide_eq_true (all_mem (p := notSpecial5) (by decide) h)
          · split at h
            · exact of_decide_eq_true (all_mem (p := notSpecial5) (by decide) h)
            · simp at h
              subst h
              rename_i h1 h2 h3 h4 h5 h6
              exact ⟨h1, h2, h4, h5, h6⟩

/-- A character that is none of the six escaped ones passes through. -/
theorem esc_full_eq_self {x : Char} (h1 : x ≠ ltC) (h2 : x ≠ gtC) (h3 : x ≠ ampC)
    (h4 : x ≠ quotC) (h5 : x ≠ aposC) (h6 : x ≠ slashC) : esc_full x = [x] := by
  simp [esc_full, h1, h2, h3, h4, h5, h6]

/-- On text containing none of the six escaped characters, the escape passes
are the identity. -/
theorem flatMap_esc_eq_self (m : List Char)
    (h : ∀ c ∈ m, c ≠ ltC ∧ c ≠ gtC ∧ c ≠ ampC ∧ c ≠ quotC ∧ c ≠ aposC ∧ c ≠ slashC) :
    m.flatMap esc_full = m := by
  induction m with
  | nil => rfl
  | cons x t ih =>
      rw [List.flatMap_cons]
      obtain ⟨h1, h2, h3, h4, h5, h6⟩ := h x (by simp)
      rw [esc_full_eq_self h1 h2 h3 h4 h5 h6, ih (fun c hc => h c (by simp [hc]))]
      rfl

/-! ### Trim lemmas -/

theorem rust_trim_sublist (l : List Char) : List.Sublist (rust_trim l) l := by
  have h1 : List.Sublist (l.dropWhile rust_is_whitespace) l :=
    List.dropWhile_sublist rust_is_whitespace
  have h2 : List.Sublist ((l.dropWhile rust_is_whitespace).reverse.dropWhile rust_is_whitespace)
      (l.dropWhile rust_is_whitespace).reverse :=
    List.dropWhile_sublist rust_is_whitespace
  have h3 := h2.reverse
  simp only [List.reverse_reverse] at h3
  exact h3.trans h1

theorem rust_trim_subset {c : Char} {l : List Char} (h : c ∈ rust_trim l) : c ∈ l :=
  (rust_trim_sublist l).subset h

theorem rust_trim_length_le (l : List Char) : (rust_trim l).length ≤ l.length :=
  (rust_trim_sublist l).length_le

theorem dropWhile_idem (p : Char → Bool) (l : List Char) :
    (l.dropWhile p).dropWhile p = l.dropWhile p := by
  induction l with
  | nil => rfl
  | cons x t ih =>
      by_cases h : p x
      · simp [List.dropWhile_cons, h, ih]
      · simp [List.dropWhile_cons, h]

/-- The trimmed text has no leading whitespace. -/
theorem rust_trim_dropWhile (l : List Char) :
    (rust_trim l).dropWhile rust_is_whitespace = rust_trim l := by
  set p := rust_is_whitespace
  set A := l.dropWhile p with hA
  have hAd : A.dropWhile p = A := by rw [hA]; exact dropWhile_idem p l
  have hB : rust_trim l = (A.reverse.dropWhile p).reverse := rfl
  rcases hBe : (A.reverse.dropWhile p).reverse with _ | ⟨b, t'⟩
  · rw [hB, hBe]; rfl
  · have hpre : List.IsPrefix (b :: t') A := by
      rw [← hBe]
      have hsuf : List.IsSuffix (A.reverse.dropWhile p) A.reverse :=
        List.dropWhile_suffix p
      have := List.reverse_prefix.mpr hsuf
      simpa using this
    obtain ⟨s, hs⟩ := hpre
    have hAcons : A = b :: (t' ++ s) := by rw [← hs]; rfl
    have hpb : ¬ p b = true := by
      intro hpb
      rw [hAcons, List.dropWhile_cons, if_pos hpb] at hAd
      have hlen := congrArg List.length hAd
      have hle := (List.dropWhile_sublist (l := t' ++ s) p).length_le
      simp only [List.length_cons, List.length_append] at hlen hle
      omega
    rw [hB, hBe, List.dropWhile_cons, if_neg hpb]

theorem rust_trim_idem (l : List Char) : rust_trim (rust_trim l) = rust_trim l := by
  have h1 : rust_trim (rust_trim l) =
      ((rust_trim l).reverse.dropWhile rust_is_whitespace).reverse := by
    unfold rust_trim
    rw [show ((l.dropWhile rust_is_whitespace).reverse.dropWhile
        rust_is_whitespace).reverse.dropWhile rust_is_whitespace =
        rust_trim l from rust_trim_dropWhile l]
    rfl
  rw [h1]
  have h2 : (rust_trim l).reverse =
      (l.dropWhile rust_is_whitespace).reverse.dropWhile rust_is_whitespace := by
    unfold rust_trim
    rw [List.reverse_reverse]
  rw [h2, dropWhile_idem, ← h2, List.reverse_reverse]

/-- A non-whitespace character of the text survives trimming. -/
theorem mem_dropWhile_of_not {c : Char} {p : Char → Bool} {l : List Char}
    (hc : c ∈ l) (hp : ¬ p c = true) : c ∈ l.dropWhile p := by
  induction l with
  | nil => cases hc
  | cons x t ih =>
      by_cases h : p x
      · rw [List.dropWhile_cons, if_pos h]
        rcases List.mem_cons.mp hc with rfl | hct
        · exact absurd h hp
        · exact ih hct
      · rw [List.dropWhile_cons, if_neg h]
        exact hc

theorem mem_rust_trim_of_not_ws {c : Char} {l : List Char} (hc : c ∈ l)
    (hp : ¬ rust_is_whitespace c = true) : c ∈ rust_trim l := by
  unfold rust_trim
  rw [List.mem_reverse]
  apply mem_dropWhile_of_not _ hp
  rw [List.mem_reverse]
  exact mem_dropWhile_of_not hc hp

/-! ### Byte length on ASCII text -/

theorem utf8Size_of_ascii {c : Char} (h : is_ascii c = true) : c.utf8Size = 1 := by
  unfold Char.utf8Size
  have hv : c.val ≤ (127 : UInt32) := by
    rw [UInt32.le_def]
    exact of_decide_eq_true h
  simp [hv]

/-- On all-ASCII text the Rust byte length is the character count. -/
theorem rust_str_len_of_ascii {l : List Char} (h : ∀ c ∈ l, is_ascii c = true) :
    rust_str_len l = l.length := by
  induction l with
  | nil => rfl
  | cons x t ih =>
      unfold rust_str_len at ih ⊢
      rw [List.map_cons, List.sum_cons, utf8Size_of_ascii (h x (by simp)),
        ih (fun c hc => h c (by simp [hc])), List.length_cons]
      omega

/-- On short, all-ASCII text containing none of the six escaped characters,
sanitization is exactly trimming. -/
theorem sanitize_eq_trim {isAlpha : Char → Bool} {x : List Char}
    (hlen : x.length ≤ 200) (hascii : ∀ c ∈ x, is_ascii c = true)
    (hclean : ∀ c ∈ x,
      c ≠ ltC ∧ c ≠ gtC ∧ c ≠ ampC ∧ c ≠ quotC ∧ c ≠ aposC ∧ c ≠ slashC) :
    sanitize_string isAlpha x = rust_trim x := by
  rw [sanitize_eq_flatMap,
    flatMap_esc_eq_self _ (fun c hc => hclean c (rust_trim_subset hc)),
    List.filter_eq_self.mpr
      (fun c hc => by simp [keep_char, hascii c (rust_trim_subset hc)])]
  exact List.take_of_length_le (le_trans (rust_trim_length_le x) hlen)

/-- Membership in the sanitized output descends to the escaped text. -/
theorem mem_sanitize {isAlpha : Char → Bool} {x : List Char} {c : Char}
    (hc : c ∈ sanitize_string isAlpha x) : c ∈ (rust_trim x).flatMap esc_full := by
  rw [sanitize_eq_flatMap] at hc
  exact (List.filter_sublist _).subset (List.take_subset _ _ hc)

theorem sanitize_length_le (isAlpha : Char → Bool) (x : List Char) :
    (sanitize_string isAlpha x).length ≤ 200 := by
  rw [sanitize_eq_flatMap]
  exact List.length_take_le _ _

/-! ## Claim C2 -/

/-- A failed `authenticate` never touches the session state. -/
theorem authenticate_fail_preserves_state {s : AppState}
    {u p : List Char} {conn : Except Unit Pool} {verifyOk : Bool}
    (h : (authenticate s u p conn verifyOk).1.success = false) :
    (authenticate s u p conn verifyOk).2.1 = s := by
  unfold authenticate at h ⊢
  by_cases h1 : (rust_trim u).isEmpty = true
  · simp [h1]
  · by_cases h2 : (rust_trim p).isEmpty = true
    · simp [h1, h2]
    · cases conn with
      | error e => simp [h1, h2]
      | ok pool =>
          by_cases h3 : verifyOk = true
          · simp [h1, h2, h3] at h
          · simp [h1, h2, h3]

/-- Claim C2. Every call to `authenticate` that returns `success = false`
(empty credentials, connection failure, or verification failure) leaves the
session state exactly as it was before the call: no partial mutation of the
pool without the flag, or of the flag without the pool, is possible. -/
theorem c2_authenticate_failure_preserves_state (s : AppState)
    (u p : List Char) (conn : Except Unit Pool) (verifyOk : Bool)
    (h : (authenticate s u p conn verifyOk).1.success = false) :
    (authenticate s u p conn verifyOk).2.1 = s :=
  authenticate_fail_preserves_state h

theorem c2_witness :
    (authenticate ⟨some ⟨7⟩, true⟩ ("u".data) ("pw".data) (.error ()) false).1.success
        = false ∧
    (authenticate ⟨some ⟨7⟩, true⟩ ("u".data) ("pw".data) (.error ()) false).2.1
        = ⟨some ⟨7⟩, true⟩ :=
  ⟨by decide,
    c2_authenticate_failure_preserves_state ⟨some ⟨7⟩, true⟩ ("u".data) ("pw".data)
      (.error ()) false (by decide)⟩

/-! ## Claim C8 -/

/-- Claim C8. Logout is total and idempotent: in every session state it
reports success, closes exactly the held pool (`s.db`; a no-op `none` when
none is held, in particular from the initial state), and leaves the session
state equal to its initial condition, so a second `logout` returns the same
response and the same state as the first. -/
theorem c8_logout_idempotent (s : AppState) :
    logout s = (⟨true, ("Logged out successfully".data)⟩, AppState.new, s.db) ∧
    (logout AppState.new).2.2 = none ∧
    (logout (logout s).2.1).1 = (logout s).1 ∧
    (logout (logout s).2.1).2.1 = (logout s).2.1 ∧
    (logout (logout s).2.1).2.2 = none :=
  ⟨rfl, rfl, rfl, rfl, rfl⟩

/-! ## Claim C4 -/

/-- Claim C4 counterexample. The claim says that `<` appears in the output under
the standard entity substitution `&lt;`. In fact the `&` pass runs after
the `<` pass, so the output for input `"<"` is `&amp;lt;`, which is not
`&lt;` and does not even contain `&lt;` as a substring. -/
theorem c4_counterexample :
    sanitize_string (fun _ => false) ("<".data) = ("&amp;lt;".data) ∧
    sanitize_string (fun _ => false) ("<".data) ≠ ("&lt;".data) ∧
    ¬ List.IsInfix ("&lt;".data) (sanitize_string (fun _ => false) ("<".data)) := by
  refine ⟨by decide, by decide, by decide⟩

/-- Claim C4, amended. Sanitization trims surrounding whitespace, applies the
per-character escape map in which `&` becomes `&amp;`, `"` becomes
`&quot;`, `'` becomes `&#x27;`, `/` becomes `&#x2F;`, and — because the
ampersand pass runs after them — `<` becomes `&amp;lt;` and `>` becomes
`&amp;gt;`; it then drops every character that is neither ASCII nor
alphabetic and truncates the result to 200 characters. -/
theorem c4_sanitize_characterization (isAlpha : Char → Bool) (l : List Char) :
    sanitize_string isAlpha l =
      (((rust_trim l).flatMap esc_full).filter (keep_char isAlpha)).take 200 ∧
    (sanitize_string isAlpha l).length ≤ 200 ∧
    (∀ c ∈ sanitize_string isAlpha l, is_ascii c = true ∨ isAlpha c = true) ∧
    esc_full ltC = ("&amp;lt;".data) ∧
    esc_full gtC = ("&amp;gt;".data) ∧
    esc_full ampC = ("&amp;".data) ∧
    esc_full quotC = ("&quot;".data) ∧
    esc_full aposC = ("&#x27;".data) ∧
    esc_full slashC = ("&#x2F;".data) := by
  refine ⟨sanitize_eq_flatMap isAlpha l, sanitize_length_le isAlpha l, ?_,
    by decide, by decide, by decide, by decide, by decide, by decide⟩
  intro c hc
  rw [sanitize_eq_flatMap] at hc
  have hm := List.take_subset _ _ hc
  have hk := (List.mem_filter.mp hm).2
  unfold keep_char at hk
  rcases Bool.or_eq_true_iff.mp hk with h | h
  · exact Or.inl h
  · exact Or.inr h

/-! ## Claim C5 -/

/-- Claim C5 counterexample. The text `"&amp;"` is sanitized ASCII text (the image of
the ASCII input `"&"`), yet `sanitize (sanitize "&amp;") ≠ sanitize
"&amp;"`: each pass escapes the ampersand of the previous entity again. -/
theorem c5_counterexample :
    (∀ c ∈ ("&".data), is_ascii c = true) ∧
    sanitize_string (fun _ => false) ("&".data) = ("&amp;".data) ∧
    sanitize_string (fun _ => false)
        (sanitize_string (fun _ => false) ("&amp;".data)) ≠
      sanitize_string (fun _ => false) ("&amp;".data) := by
  refine ⟨by decide, by decide, by decide⟩

/-- Claim C5, amended. Sanitization is idempotent on already-sanitized ASCII
text that contains no ampersand: for `x` in the image of `sanitize`
restricted to ASCII inputs, if `&` does not occur in `x` then
`sanitize (sanitize x) = sanitize x`. (The counterexample above shows the
restriction is necessary: sanitized text containing `&` is re-escaped.) -/
theorem c5_sanitize_idempotent_no_amp (isAlpha : Char → Bool) (x : List Char)
    (himg : ∃ y, (∀ c ∈ y, is_ascii c = true) ∧ sanitize_string isAlpha y = x)
    (hamp : ampC ∉ x) :
    sanitize_string isAlpha (sanitize_string isAlpha x) = sanitize_string isAlpha x := by
  obtain ⟨y, hy, hxy⟩ := himg
  have hx_ascii : ∀ c ∈ x, is_ascii c = true := by
    intro c hc
    rw [← hxy] at hc
    obtain ⟨d, hd, hcd⟩ := List.mem_flatMap.mp (mem_sanitize hc)
    exact esc_full_ascii (hy d (rust_trim_subset hd)) hcd
  have hx_clean : ∀ c ∈ x,
      c ≠ ltC ∧ c ≠ gtC ∧ c ≠ ampC ∧ c ≠ quotC ∧ c ≠ aposC ∧ c ≠ slashC := by
    intro c hc
    have hne : c ≠ ampC := fun he => hamp (he ▸ hc)
    rw [← hxy] at hc
    obtain ⟨d, hd, hcd⟩ := List.mem_flatMap.mp (mem_sanitize hc)
    obtain ⟨n1, n2, n4, n5, n6⟩ := esc_full_not_special hcd
    exact ⟨n1, n2, hne, n4, n5, n6⟩
  have hx_len : x.length ≤ 200 := by
    rw [← hxy]
    exact sanitize_length_le isAlpha y
  have e1 : sanitize_string isAlpha x = rust_trim x :=
    sanitize_eq_trim hx_len hx_ascii hx_clean
  rw [e1]
  have e2 : sanitize_string isAlpha (rust_trim x) = rust_trim (rust_trim x) :=
    sanitize_eq_trim (le_trans (rust_trim_length_le x) hx_len)
      (fun c hc => hx_ascii c (rust_trim_subset hc))
      (fun c hc => hx_clean c (rust_trim_subset hc))
  rw [e2, rust_trim_idem]

theorem c5_witness :
    sanitize_string (fun _ => false)
        (sanitize_string (fun _ => false) ("abc".data)) =
      sanitize_string (fun _ => false) ("abc".data) :=
  c5_sanitize_idempotent_no_amp (fun _ => false) ("abc".data)
    ⟨("abc".data), by decide, by decide⟩ (by decide)

theorem isEmpty_false_of_ne_nil {l : List Char} (h : l ≠ []) : l.isEmpty = false := by
  cases l with
  | nil => exact absurd rfl h
  | cons x t => rfl

/-! ## Claim C6 -/

/-- A name of 102 characters, 302 UTF-8 bytes: every character is in the
allowed class (`U+2000` is Unicode whitespace, matched by the pattern's
`\s`), and its character count after trimming is between 1 and 200, yet
`validate_name` rejects it, because the code's length check is on
`str::len`, the UTF-8 byte count. -/
def badLenName : List Char := ['a'] ++ List.replicate 100 (Char.ofNat 0x2000) ++ ['b']

/-- Claim C6 counterexample. Reading "length" as the character count (the
spec's data model says "1–200 characters after trimming"), a name made of
`a`, one hundred `U+2000` whitespace characters and `b` lies in the allowed
set with 102 characters after trimming, but `validate_name` returns
`TooLong` instead of ok. -/
theorem c6_counterexample :
    (∀ c ∈ badLenName, name_allowed_char c = true) ∧
    1 ≤ (rust_trim badLenName).length ∧
    (rust_trim badLenName).length ≤ 200 ∧
    validate_name badLenName = .error (.TooLong ("Name".data) 200) := by
  refine ⟨by decide, by decide, by decide, by decide⟩

/-- The full case analysis of `validate_name`, with length measured as the
code measures it: in UTF-8 bytes (`str::len`), which coincides with the
character count on ASCII names. Acceptance for in-range all-allowed names;
`EmptyField` when empty after trimming; `TooLong` over 200 trimmed bytes;
`InvalidCharacters` for a disallowed character with the length in range. -/
theorem validate_name_cases (name : List Char) :
    (1 ≤ rust_str_len (rust_trim name) → rust_str_len (rust_trim name) ≤ 200 →
      (∀ c ∈ name, name_allowed_char c = true) → validate_name name = .ok ()) ∧
    (rust_trim name = [] → validate_name name = .error (.EmptyField ("Name".data))) ∧
    (200 < rust_str_len (rust_trim name) →
      validate_name name = .error (.TooLong ("Name".data) 200)) ∧
    (rust_str_len (rust_trim name) ≤ 200 →
      (∃ c ∈ name, ¬ name_allowed_char c = true) →
      validate_name name = .error (.InvalidCharacters ("Name".data))) := by
  refine ⟨?_, ?_, ?_, ?_⟩
  · intro h1 h2 h3
    have hne : (rust_trim name).isEmpty = false := by
      apply isEmpty_false_of_ne_nil
      intro he
      rw [he] at h1
      simp [rust_str_len] at h1
    have hpat : name_pattern_matches (rust_trim name) = true := by
      unfold name_pattern_matches
      rw [Bool.and_eq_true, List.all_eq_true]
      exact ⟨by simp [hne], fun c hc => h3 c (rust_trim_subset hc)⟩
    simp [validate_name, hne, not_lt.mpr h2, hpat]
  · intro he
    simp [validate_name, he]
  · intro h
    have hne : (rust_trim name).isEmpty = false := by
      apply isEmpty_false_of_ne_nil
      intro he
      rw [he] at h
      simp [rust_str_len] at h
    simp [validate_name, hne, h]
  · intro hle hbad
    obtain ⟨c, hcmem, hcbad⟩ := hbad
    have hnws : ¬ rust_is_whitespace c = true := by
      intro hws
      exact hcbad (by simp [name_allowed_char, hws])
    have hcin : c ∈ rust_trim name := mem_rust_trim_of_not_ws hcmem hnws
    have hne : (rust_trim name).isEmpty = false := by
      apply isEmpty_false_of_ne_nil
      intro he
      rw [he] at hcin
      cases hcin
    have hpat : name_pattern_matches (rust_trim name) = false := by
      unfold name_pattern_matches
      rw [Bool.and_eq_false_iff]
      right
      rw [List.all_eq_false]
      exact ⟨c, hcin, hcbad⟩
    simp [validate_name, hne, not_lt.mpr hle, hpat]

/-- Claim C6, amended. Restatement of `validate_name_cases` as the amended
claim: with length measured in UTF-8 bytes (`str::len`), `validate_name`
accepts exactly the in-range all-allowed names and reports the specific
error for each single violated constraint. -/
theorem c6_validate_name_spec (name : List Char) :
    (1 ≤ rust_str_len (rust_trim name) → rust_str_len (rust_trim name) ≤ 200 →
      (∀ c ∈ name, name_allowed_char c = true) → validate_name name = .ok ()) ∧
    (rust_trim name = [] → validate_name name = .error (.EmptyField ("Name".data))) ∧
    (200 < rust_str_len (rust_trim name) →
      validate_name name = .error (.TooLong ("Name".data) 200)) ∧
    (rust_str_len (rust_trim name) ≤ 200 →
      (∃ c ∈ name, ¬ name_allowed_char c = true) →
      validate_name name = .error (.InvalidCharacters ("Name".data))) :=
  validate_name_cases name

theorem c6_witness :
    validate_name ("Inception".data) = .ok () ∧
    validate_name ("   ".data) = .error (.EmptyField ("Name".data)) ∧
    validate_name (List.replicate 201 'a') = .error (.TooLong ("Name".data) 200) ∧
    validate_name ("Matrix <3>".data) = .error (.InvalidCharacters ("Name".data)) :=
  ⟨(c6_validate_name_spec ("Inception".data)).1 (by decide) (by decide) (by decide),
   (c6_validate_name_spec ("   ".data)).2.1 (by decide),
   (c6_validate_name_spec (List.replicate 201 'a')).2.2.1 (by decide),
   (c6_validate_name_spec ("Matrix <3>".data)).2.2.2 (by decide)
     ⟨'<', by decide, by decide⟩⟩

/-! ## Claim C3 -/

/-- The validator `validate_rating` succeeds exactly on the closed range `[1, 10]`. -/
theorem validate_rating_ok_iff (r : Int) :
    validate_rating r = .ok () ↔ ¬ (r < 1 ∨ 10 < r) := by
  unfold validate_rating
  by_cases h : r < 1 ∨ 10 < r
  · simp [h]
  · simp [h]

/-- A successful item validation splits into its two checks. -/
theorem validate_item_ok {item : WatchListItem}
    (h : validate_watch_list_item item = .ok ()) :
    validate_name item.name = .ok () ∧ validate_rating item.rating = .ok () := by
  unfold validate_watch_list_item at h
  cases hV : validate_name item.name with
  | error e => rw [hV] at h; cases h
  | ok u => cases u; rw [hV] at h; exact ⟨rfl, h⟩

/-- A table extended with exactly the row the insert writes always triggers
the duplicate check for the same sanitized name and media type. -/
theorem check_dup_append (rows : List DbRow) (name : List Char) (mt : MediaType)
    (newId r : Int) (w : Bool) :
    check_duplicate_exists (rows ++ [⟨newId, mt.toStr, name, r, w⟩]) name mt = true := by
  unfold check_duplicate_exists
  rw [List.any_append]
  simp

/-- A failed duplicate check means no stored row matches the key. -/
theorem check_dup_false {rows : List DbRow} {name : List Char} {mt : MediaType}
    (h : check_duplicate_exists rows name mt = false) :
    ∀ r ∈ rows, ¬ (norm_key r.name = norm_key name ∧ r.media_type = mt.toStr) := by
  intro r hr hcon
  unfold check_duplicate_exists at h
  rw [List.any_eq_false] at h
  have := h r hr
  simp [hcon.1, hcon.2] at this

/-- The application-layer uniqueness invariant: no two stored rows share
the pair (lowercased trimmed name, media type). -/
def unique_pairs (rows : List DbRow) : Prop :=
  List.Pairwise
    (fun a b => ¬ (norm_key a.name = norm_key b.name ∧ a.media_type = b.media_type)) rows

/-- What a successful insert guarantees: the item validated, the sanitized
name was non-empty, no duplicate existed, and exactly the new row was
appended. -/
theorem insert_success_spec {isAlpha : Char → Bool} {s : AppState}
    {item : WatchListItem} {rows : List DbRow} {dupOk insertOk : Bool} {newId : Int}
    (h : (insert_watch_item isAlpha s item rows dupOk insertOk newId).1.success = true) :
    validate_watch_list_item item = .ok () ∧
    (rust_trim (sanitize_string isAlpha item.name)).isEmpty = false ∧
    check_duplicate_exists rows (sanitize_string isAlpha item.name) item.media_type
        = false ∧
    (insert_watch_item isAlpha s item rows dupOk insertOk newId).2.1 =
      rows ++ [⟨newId, item.media_type.toStr, sanitize_string isAlpha item.name,
        item.rating, item.would_watch_again⟩] ∧
    (∃ pool, get_authenticated_pool s = .ok pool) := by
  cases hA : get_authenticated_pool s with
  | error e => simp only [insert_watch_item, hA] at h; cases h
  | ok pool =>
      cases hV : validate_watch_list_item item with
      | error ve => simp only [insert_watch_item, hA, hV] at h; cases h
      | ok u =>
          cases u
          simp only [insert_watch_item, hA, hV] at h ⊢
          by_cases hr : item.rating < 1 ∨ 10 < item.rating
          · rw [if_pos hr] at h; cases h
          · rw [if_neg hr] at h ⊢
            by_cases hE : (rust_trim (sanitize_string isAlpha item.name)).isEmpty = true
            · rw [if_pos hE] at h; cases h
            · rw [if_neg hE] at h ⊢
              by_cases hd : ¬ dupOk = true
              · rw [if_pos hd] at h; cases h
              · rw [if_neg hd] at h ⊢
                by_cases hC : check_duplicate_exists rows
                    (sanitize_string isAlpha item.name) item.media_type = true
                · rw [if_pos hC] at h; cases h
                · rw [if_neg hC] at h ⊢
                  by_cases hI : insertOk = true
                  · rw [if_pos hI]
                    exact ⟨trivial, Bool.eq_false_iff.mpr hE, Bool.eq_false_iff.mpr hC,
                      rfl, ⟨pool, rfl⟩⟩
                  · rw [if_neg hI] at h; cases h

/-- The table after any insert: unchanged, or extended by exactly the new
row after a duplicate check that found nothing. -/
theorem insert_rows_cases (isAlpha : Char → Bool) (s : AppState) (item : WatchListItem)
    (rows : List DbRow) (dupOk insertOk : Bool) (newId : Int) :
    (insert_watch_item isAlpha s item rows dupOk insertOk newId).2.1 = rows ∨
    ((insert_watch_item isAlpha s item rows dupOk insertOk newId).2.1 =
        rows ++ [⟨newId, item.media_type.toStr, sanitize_string isAlpha item.name,
          item.rating, item.would_watch_again⟩] ∧
      check_duplicate_exists rows (sanitize_string isAlpha item.name) item.media_type
        = false) := by
  cases hA : get_authenticated_pool s with
  | error e => left; simp only [insert_watch_item, hA]
  | ok pool =>
      cases hV : validate_watch_list_item item with
      | error ve => left; simp only [insert_watch_item, hA, hV]
      | ok u =>
          cases u
          simp only [insert_watch_item, hA, hV]
          by_cases hr : item.rating < 1 ∨ 10 < item.rating
          · left; rw [if_pos hr]
          · rw [if_neg hr]
            by_cases hE : (rust_trim (sanitize_string isAlpha item.name)).isEmpty = true
            · left; rw [if_pos hE]
            · rw [if_neg hE]
              by_cases hd : ¬ dupOk = true
              · left; rw [if_pos hd]
              · rw [if_neg hd]
                by_cases hC : check_duplicate_exists rows
                    (sanitize_string isAlpha item.name) item.media_type = true
                · left; rw [if_pos hC]
                · rw [if_neg hC]
                  by_cases hI : insertOk = true
                  · right; rw [if_pos hI]; exact ⟨rfl, Bool.eq_false_iff.mpr hC⟩
                  · left; rw [if_neg hI]

/-- Claim C3. In an authenticated session, inserting the same item twice
makes the second `insert_item` (with the duplicate check reaching the
store) return `success = false` with the `DuplicateEntry` message and
`rows_affected = 0`, leaving the table unchanged; and every insert
preserves the invariant that the pair (lowercased trimmed name,
media type) is unique across stored rows. -/
theorem c3_duplicate_insert_spec :
    (∀ (isAlpha : Char → Bool) (s : AppState) (item : WatchListItem)
        (rows : List DbRow) (d1 i1 : Bool) (id1 : Int) (i2 : Bool) (id2 : Int),
      (insert_watch_item isAlpha s item rows d1 i1 id1).1.success = true →
      (insert_watch_item isAlpha s item
          ((insert_watch_item isAlpha s item rows d1 i1 id1).2.1) true i2 id2).1 =
        ⟨false, (ValidationError.DuplicateEntry (media_type_label item.media_type)
            (sanitize_string isAlpha item.name)).toMessage, 0, none⟩ ∧
      (insert_watch_item isAlpha s item
          ((insert_watch_item isAlpha s item rows d1 i1 id1).2.1) true i2 id2).2.1 =
        (insert_watch_item isAlpha s item rows d1 i1 id1).2.1) ∧
    (∀ (isAlpha : Char → Bool) (s : AppState) (item : WatchListItem)
        (rows : List DbRow) (dupOk insertOk : Bool) (newId : Int),
      unique_pairs rows →
      unique_pairs ((insert_watch_item isAlpha s item rows dupOk insertOk newId).2.1)) := by
  constructor
  · intro isAlpha s item rows d1 i1 id1 i2 id2 h
    obtain ⟨hV, hE, hC, hrows, ⟨pool, hA⟩⟩ := insert_success_spec h
    have hr : ¬ (item.rating < 1 ∨ 10 < item.rating) := by
      have hrate := (validate_item_ok hV).2
      rwa [validate_rating_ok_iff] at hrate
    have hE' : ¬ (rust_trim (sanitize_string isAlpha item.name)).isEmpty = true := by
      simp [hE]
    rw [hrows]
    have hdup2 : check_duplicate_exists
        (rows ++ [⟨id1, item.media_type.toStr, sanitize_string isAlpha item.name,
          item.rating, item.would_watch_again⟩])
        (sanitize_string isAlpha item.name) item.media_type = true :=
      check_dup_append rows (sanitize_string isAlpha item.name) item.media_type
        id1 item.rating item.would_watch_again
    constructor
    · simp only [insert_watch_item, hA, hV]
      rw [if_neg hr, if_neg hE', if_neg (not_not_intro trivial), if_pos hdup2]
    · simp only [insert_watch_item, hA, hV]
      rw [if_neg hr, if_neg hE', if_neg (not_not_intro trivial), if_pos hdup2]
  · intro isAlpha s item rows dupOk insertOk newId hu
    rcases insert_rows_cases isAlpha s item rows dupOk insertOk newId with
      hcase | ⟨hcase, hdupf⟩
    · rw [hcase]; exact hu
    · rw [hcase]
      unfold unique_pairs at hu ⊢
      rw [List.pairwise_append]
      refine ⟨hu, by simp, ?_⟩
      intro a ha b hb
      have hb' : b = ⟨newId, item.media_type.toStr, sanitize_string isAlpha item.name,
          item.rating, item.would_watch_again⟩ := by simpa using hb
      subst hb'
      exact check_dup_false hdupf a ha

theorem c3_witness :
    (insert_watch_item (fun _ => false) ⟨some ⟨1⟩, true⟩
        ⟨none, .movie, ("Inception".data), 9, true⟩
        ((insert_watch_item (fun _ => false) ⟨some ⟨1⟩, true⟩
          ⟨none, .movie, ("Inception".data), 9, true⟩ [] true true 1).2.1)
        true true 2).1 =
      ⟨false, (ValidationError.DuplicateEntry
          (media_type_label MediaType.movie)
          (sanitize_string (fun _ => false) ("Inception".data))).toMessage, 0, none⟩ ∧
    (insert_watch_item (fun _ => false) ⟨some ⟨1⟩, true⟩
        ⟨none, .movie, ("Inception".data), 9, true⟩
        ((insert_watch_item (fun _ => false) ⟨some ⟨1⟩, true⟩
          ⟨none, .movie, ("Inception".data), 9, true⟩ [] true true 1).2.1)
        true true 2).2.1 =
      (insert_watch_item (fun _ => false) ⟨some ⟨1⟩, true⟩
        ⟨none, .movie, ("Inception".data), 9, true⟩ [] true true 1).2.1 :=
  c3_duplicate_insert_spec.1 (fun _ => false) ⟨some ⟨1⟩, true⟩
    ⟨none, .movie, ("Inception".data), 9, true⟩ [] true true 1 true 2 (by decide)

/-! ## Claim C7 -/

theorem mem_rust_dedup : ∀ (l : List Int) (x : Int), x ∈ rust_dedup l ↔ x ∈ l
  | [], x => by simp [rust_dedup]
  | [a], x => by simp [rust_dedup]
  | a :: b :: rest, x => by
      by_cases h : a = b
      · subst h
        rw [show rust_dedup (a :: a :: rest) = rust_dedup (a :: rest) by
          simp [rust_dedup]]
        rw [mem_rust_dedup (a :: rest) x]
        simp
      · simp only [rust_dedup, if_neg h, List.mem_cons]
        rw [mem_rust_dedup (b :: rest) x]
        simp

/-- Rust `dedup` after an ascending sort yields a strictly ascending list. -/
theorem rust_dedup_sorted_lt : ∀ (l : List Int),
    List.Pairwise (fun a b : Int => a ≤ b) l →
    List.Pairwise (fun a b : Int => a < b) (rust_dedup l)
  | [], _ => by simp [rust_dedup]
  | [a], _ => by simp [rust_dedup]
  | a :: b :: rest, h => by
      have h1 : a ≤ b := (List.pairwise_cons.mp h).1 b (by simp)
      have htail : List.Pairwise (fun a b : Int => a ≤ b) (b :: rest) :=
        (List.pairwise_cons.mp h).2
      by_cases hab : a = b
      · simp only [rust_dedup, if_pos hab]
        exact rust_dedup_sorted_lt (b :: rest) htail
      · simp only [rust_dedup, if_neg hab]
        refine List.pairwise_cons.mpr ⟨?_, rust_dedup_sorted_lt (b :: rest) htail⟩
        intro y hy
        have hyin : y ∈ b :: rest := (mem_rust_dedup _ _).mp hy
        have hab' : a < b := lt_of_le_of_ne h1 hab
        rcases List.mem_cons.mp hyin with rfl | hyr
        · exact hab'
        · exact lt_of_lt_of_le hab' ((List.pairwise_cons.mp htail).1 y hyr)

/-- The prepared id list covers exactly the distinct input ids. -/
theorem prepared_ids_toFinset (ids : List Int) :
    (prepared_ids ids).toFinset = ids.toFinset := by
  ext x
  simp only [List.mem_toFinset, prepared_ids, mem_rust_dedup,
    (List.perm_insertionSort (fun a b : Int => a ≤ b) ids).mem_iff]

/-- With pairwise distinct stored ids, a multi-id delete affects at most as
many rows as there are ids in the prepared list. -/
theorem countP_mem_le_card (rows : List DbRow) (uids : List Int)
    (hnd : (rows.map DbRow.id).Nodup) :
    rows.countP (fun r => decide (r.id ∈ uids)) ≤ uids.toFinset.card := by
  rw [List.countP_eq_length_filter]
  set f := rows.filter (fun r => decide (r.id ∈ uids)) with hf
  have hsub : List.Sublist (f.map DbRow.id) (rows.map DbRow.id) :=
    (List.filter_sublist rows).map DbRow.id
  have hnd2 : (f.map DbRow.id).Nodup := List.Nodup.sublist hsub hnd
  have hsubset : (f.map DbRow.id).toFinset ⊆ uids.toFinset := by
    intro x hx
    rw [List.mem_toFinset] at hx ⊢
    obtain ⟨r, hr, rfl⟩ := List.mem_map.mp hx
    exact of_decide_eq_true (List.mem_filter.mp hr).2
  calc f.length = (f.map DbRow.id).length := (List.length_map f DbRow.id).symm
    _ = (f.map DbRow.id).toFinset.card := (List.toFinset_card_of_nodup hnd2).symm
    _ ≤ uids.toFinset.card := Finset.card_le_card hsubset

/-- Claim C7. Every authenticated `delete_items` call (valid id list, delete
round trip succeeding, distinct stored primary keys) deduplicates and sorts
the ids into `prepared_ids`, issues a single parameterized delete over them,
never errors because of repeated input ids, and affects at most as many
rows as there are distinct input ids. -/
theorem c7_delete_dedup_spec (s : AppState) (ids : List Int) (rows : List DbRow)
    (pool : Pool) (hauth : get_authenticated_pool s = .ok pool)
    (hvalid : validate_ids_for_deletion ids = .ok ())
    (hnd : (rows.map DbRow.id).Nodup) :
    List.Pairwise (fun a b : Int => a ≤ b) (prepared_ids ids) ∧
    (prepared_ids ids).Nodup ∧
    (prepared_ids ids).toFinset = ids.toFinset ∧
    (delete_watch_items s ids rows true).2.2 = [.deleteRows (prepared_ids ids)] ∧
    (delete_watch_items s ids rows true).1.success = true ∧
    (delete_watch_items s ids rows true).1.rows_affected ≤ ids.toFinset.card := by
  have hsort : List.Pairwise (fun a b : Int => a ≤ b)
      (List.insertionSort (fun a b : Int => a ≤ b) ids) :=
    List.sorted_insertionSort _ ids
  have hlt := rust_dedup_sorted_lt _ hsort
  have hdel : delete_watch_items s ids rows true =
      (⟨true,
        ("Successfully deleted ".data)
          ++ natStr (rows.countP (fun r => decide (r.id ∈ prepared_ids ids)))
          ++ (" item(s)".data),
        rows.countP (fun r => decide (r.id ∈ prepared_ids ids)), none⟩,
        rows.filter (fun r => decide (r.id ∉ prepared_ids ids)),
        [.deleteRows (prepared_ids ids)]) := by
    unfold delete_watch_items
    rw [hauth, hvalid]
    rfl
  refine ⟨hlt.imp le_of_lt, hlt.imp (fun h => ne_of_lt h), prepared_ids_toFinset ids,
    by rw [hdel], by rw [hdel], ?_⟩
  rw [hdel]
  have := countP_mem_le_card rows (prepared_ids ids) hnd
  rwa [prepared_ids_toFinset ids] at this

theorem c7_witness :
    List.Pairwise (fun a b : Int => a ≤ b) (prepared_ids [5, 5, 3, 3, 3]) ∧
    (prepared_ids [5, 5, 3, 3, 3]).Nodup ∧
    (prepared_ids [5, 5, 3, 3, 3]).toFinset = ([5, 5, 3, 3, 3] : List Int).toFinset ∧
    (delete_watch_items ⟨some ⟨3⟩, true⟩ [5, 5, 3, 3, 3]
        [⟨3, ("movie".data), ("A".data), 5, true⟩,
         ⟨5, ("tv".data), ("B".data), 6, false⟩,
         ⟨9, ("movie".data), ("C".data), 7, true⟩] true).2.2 =
      [.deleteRows (prepared_ids [5, 5, 3, 3, 3])] ∧
    (delete_watch_items ⟨some ⟨3⟩, true⟩ [5, 5, 3, 3, 3]
        [⟨3, ("movie".data), ("A".data), 5, true⟩,
         ⟨5, ("tv".data), ("B".data), 6, false⟩,
         ⟨9, ("movie".data), ("C".data), 7, true⟩] true).1.success = true ∧
    (delete_watch_items ⟨some ⟨3⟩, true⟩ [5, 5, 3, 3, 3]
        [⟨3, ("movie".data), ("A".data), 5, true⟩,
         ⟨5, ("tv".data), ("B".data), 6, false⟩,
         ⟨9, ("movie".data), ("C".data), 7, true⟩] true).1.rows_affected ≤
      ([5, 5, 3, 3, 3] : List Int).toFinset.card :=
  c7_delete_dedup_spec ⟨some ⟨3⟩, true⟩ [5, 5, 3, 3, 3]
    [⟨3, ("movie".data), ("A".data), 5, true⟩,
     ⟨5, ("tv".data), ("B".data), 6, false⟩,
     ⟨9, ("movie".data), ("C".data), 7, true⟩] ⟨3⟩
    (by decide) (by decide) (by decide)

/-! ## Claim C9 -/

/-- Claim C9. Every authenticated `list_items` call (over any stored rows,
with a successful fetch) succeeds as a whole: the result is exactly the
total per-row mapping applied to the first 1000 rows in ascending id order,
so it holds at most 1000 items, is ordered by id ascending, re-sanitizes
every returned name, and maps any stored media-type tag other than
`"movie"`/`"tv"` to `Movie`; no individual row can fail the call. -/
theorem c9_list_items_spec :
    (∀ (isAlpha : Char → Bool) (r : DbRow),
      (row_to_item isAlpha r).name = sanitize_string isAlpha r.name ∧
      (row_to_item isAlpha r).id = some r.id ∧
      (r.media_type ≠ ("movie".data) → r.media_type ≠ ("tv".data) →
        (row_to_item isAlpha r).media_type = MediaType.movie)) ∧
    (∀ (isAlpha : Char → Bool) (s : AppState) (rows : List DbRow) (pool : Pool),
      get_authenticated_pool s = .ok pool →
      (get_all_watch_items isAlpha s rows true).1.success = true ∧
      (get_all_watch_items isAlpha s rows true).1.data =
        some (((List.insertionSort rowLe rows).take 1000).map (row_to_item isAlpha)) ∧
      (get_all_watch_items isAlpha s rows true).1.rows_affected =
        (((List.insertionSort rowLe rows).take 1000).map (row_to_item isAlpha)).length ∧
      (((List.insertionSort rowLe rows).take 1000).map (row_to_item isAlpha)).length ≤ 1000 ∧
      List.Pairwise (fun a b : WatchListItem => a.id.getD 0 ≤ b.id.getD 0)
        (((List.insertionSort rowLe rows).take 1000).map (row_to_item isAlpha))) := by
  constructor
  · intro isAlpha r
    refine ⟨rfl, rfl, fun h1 h2 => ?_⟩
    simp [row_to_item, h1, h2]
  · intro isAlpha s rows pool h
    have hresp : get_all_watch_items isAlpha s rows true =
        (⟨true,
          ("Retrieved ".data)
            ++ natStr (((List.insertionSort rowLe rows).take 1000).map
                (row_to_item isAlpha)).length
            ++ (" items successfully".data),
          (((List.insertionSort rowLe rows).take 1000).map (row_to_item isAlpha)).length,
          some (((List.insertionSort rowLe rows).take 1000).map (row_to_item isAlpha))⟩,
          [.selectAll]) := by
      unfold get_all_watch_items
      rw [h]
      rfl
    refine ⟨by rw [hresp], by rw [hresp], by rw [hresp], ?_, ?_⟩
    · rw [List.length_map]
      exact List.length_take_le _ _
    · rw [List.pairwise_map]
      have hsorted : List.Pairwise rowLe (List.insertionSort rowLe rows) :=
        List.sorted_insertionSort rowLe rows
      have htake : List.Pairwise rowLe ((List.insertionSort rowLe rows).take 1000) :=
        List.Pairwise.sublist (List.take_sublist _ _) hsorted
      exact htake.imp (fun hab => hab)

theorem c9_witness :
    (get_all_watch_items (fun _ => false) ⟨some ⟨1⟩, true⟩
        [⟨2, ("podcast".data), ("B<".data), 5, true⟩,
         ⟨1, ("tv".data), ("A".data), 7, false⟩] true).1.success = true ∧
    (get_all_watch_items (fun _ => false) ⟨some ⟨1⟩, true⟩
        [⟨2, ("podcast".data), ("B<".data), 5, true⟩,
         ⟨1, ("tv".data), ("A".data), 7, false⟩] true).1.data =
      some (((List.insertionSort rowLe
          [⟨2, ("podcast".data), ("B<".data), 5, true⟩,
           ⟨1, ("tv".data), ("A".data), 7, false⟩]).take 1000).map
        (row_to_item (fun _ => false))) ∧
    (get_all_watch_items (fun _ => false) ⟨some ⟨1⟩, true⟩
        [⟨2, ("podcast".data), ("B<".data), 5, true⟩,
         ⟨1, ("tv".data), ("A".data), 7, false⟩] true).1.rows_affected =
      (((List.insertionSort rowLe
          [⟨2, ("podcast".data), ("B<".data), 5, true⟩,
           ⟨1, ("tv".data), ("A".data), 7, false⟩]).take 1000).map
        (row_to_item (fun _ => false))).length ∧
    (((List.insertionSort rowLe
        [⟨2, ("podcast".data), ("B<".data), 5, true⟩,
         ⟨1, ("tv".data), ("A".data), 7, false⟩]).take 1000).map
      (row_to_item (fun _ => false))).length ≤ 1000 ∧
    List.Pairwise (fun a b : WatchListItem => a.id.getD 0 ≤ b.id.getD 0)
      (((List.insertionSort rowLe
          [⟨2, ("podcast".data), ("B<".data), 5, true⟩,
           ⟨1, ("tv".data), ("A".data), 7, false⟩]).take 1000).map
        (row_to_item (fun _ => false))) :=
  c9_list_items_spec.2 (fun _ => false) ⟨some ⟨1⟩, true⟩
    [⟨2, ("podcast".data), ("B<".data), 5, true⟩,
     ⟨1, ("tv".data), ("A".data), 7, false⟩] ⟨1⟩ (by decide)


/-! ## Claim C10 -/

/-- On all-ASCII input whose escaped trimmed form fits in 200 characters,
sanitization is exactly the escape pass (no character is dropped, nothing
is truncated). -/
theorem sanitize_eq_esc_of_ascii_short {isAlpha : Char → Bool} {raw : List Char}
    (hascii : ∀ c ∈ raw, is_ascii c = true)
    (hlen : ((rust_trim raw).flatMap esc_full).length ≤ 200) :
    sanitize_string isAlpha raw = (rust_trim raw).flatMap esc_full := by
  rw [sanitize_eq_flatMap]
  rw [List.filter_eq_self.mpr (fun c hc => ?_)]
  · exact List.take_of_length_le hlen
  · obtain ⟨d, hd, hcd⟩ := List.mem_flatMap.mp hc
    have := esc_full_ascii (hascii d (rust_trim_subset hd)) hcd
    simp [keep_char, this]

/-- A `#` (as produced by the `&#x27;` and `&#x2F;` entities) makes
`validate_name` fail with `InvalidCharacters` on short ASCII text. -/
theorem validate_name_hash {x : List Char} (hascii : ∀ c ∈ x, is_ascii c = true)
    (hlen : x.length ≤ 200) (hhash : hashC ∈ x) :
    validate_name x = .error (.InvalidCharacters ("Name".data)) := by
  apply (validate_name_cases x).2.2.2
  · rw [rust_str_len_of_ascii (fun c hc => hascii c (rust_trim_subset hc))]
    exact le_trans (rust_trim_length_le x) hlen
  · exact ⟨hashC, hhash, by decide⟩

/-- An insert whose item fails validation returns that error and performs
no network call. -/
theorem insert_validation_error {isAlpha : Char → Bool} {s : AppState}
    {item : WatchListItem} {rows : List DbRow} {dupOk insertOk : Bool} {newId : Int}
    {pool : Pool} {e : ValidationError}
    (hA : get_authenticated_pool s = .ok pool)
    (hV : validate_watch_list_item item = .error e) :
    insert_watch_item isAlpha s item rows dupOk insertOk newId =
      (⟨false, e.toMessage, 0, none⟩, rows, []) := by
  simp only [insert_watch_item, hA, hV]

theorem validate_item_name_error {item : WatchListItem} {e : ValidationError}
    (h : validate_name item.name = .error e) :
    validate_watch_list_item item = .error e := by
  unfold validate_watch_list_item
  rw [h]

/-- Claim C10 counterexample. A raw name of 199 `a`s and a final apostrophe:
the boundary sanitization expands the apostrophe to `&#x27;` but the
200-character truncation cuts the entity down to a bare `&`, which the name
pattern allows — so this insert (authenticated, empty table, healthy store)
*succeeds*, refuting the claim that every raw name containing an apostrophe
is rejected with `InvalidCharacters`. -/
theorem c10_counterexample :
    aposC ∈ (List.replicate 199 'a' ++ [aposC]) ∧
    (insert_item_command (fun _ => false) ⟨some ⟨1⟩, true⟩
        ⟨none, .movie, List.replicate 199 'a' ++ [aposC], 5, true⟩
        [] true true 1).1.success = true := by
  refine ⟨by simp, by decide⟩

/-- Claim C10, amended. The name crossing the boundary is sanitized there
(`deserialize_sanitized_string`) and the insert path then validates that
once-sanitized text and sanitizes it again before storage. Consequently
(i) `insert_item` behaves exactly like `insert_watch_item` on the
boundary-sanitized item; (ii) *provided the escaped trimmed name fits
within the 200-character truncation*, every ASCII raw name containing an
apostrophe or a forward slash — although the apostrophe lies in the
documented allowed character set — is rejected with `InvalidCharacters`,
because the escape entity's `#` fails the name pattern; and (iii) whatever
is stored is the doubly-sanitized name. -/
theorem c10_double_sanitize_spec :
    (∀ (isAlpha : Char → Bool) (s : AppState) (item : WatchListItem)
        (rows : List DbRow) (dupOk insertOk : Bool) (newId : Int),
      insert_item_command isAlpha s item rows dupOk insertOk newId =
        insert_watch_item isAlpha s
          { item with name := sanitize_string isAlpha item.name }
          rows dupOk insertOk newId) ∧
    (∀ (isAlpha : Char → Bool) (s : AppState) (item : WatchListItem)
        (rows : List DbRow) (dupOk insertOk : Bool) (newId : Int) (pool : Pool),
      get_authenticated_pool s = .ok pool →
      (∀ c ∈ item.name, is_ascii c = true) →
      ((rust_trim item.name).flatMap esc_full).length ≤ 200 →
      (aposC ∈ rust_trim item.name ∨ slashC ∈ rust_trim item.name) →
      insert_item_command isAlpha s item rows dupOk insertOk newId =
        (⟨false, (ValidationError.InvalidCharacters ("Name".data)).toMessage, 0, none⟩,
          rows, [])) ∧
    (∀ (isAlpha : Char → Bool) (s : AppState) (item : WatchListItem)
        (rows : List DbRow) (dupOk insertOk : Bool) (newId : Int),
      (insert_item_command isAlpha s item rows dupOk insertOk newId).2.1 = rows ∨
      (insert_item_command isAlpha s item rows dupOk insertOk newId).2.1 =
        rows ++ [⟨newId, item.media_type.toStr,
          sanitize_string isAlpha (sanitize_string isAlpha item.name),
          item.rating, item.would_watch_again⟩]) := by
  refine ⟨fun _ _ _ _ _ _ _ => rfl, ?_, ?_⟩
  · intro isAlpha s item rows dupOk insertOk newId pool hA hascii hlen hmem
    have hsan : sanitize_string isAlpha item.name = (rust_trim item.name).flatMap esc_full :=
      sanitize_eq_esc_of_ascii_short hascii hlen
    have hhash : hashC ∈ sanitize_string isAlpha item.name := by
      rw [hsan]
      rcases hmem with hm | hm
      · exact List.mem_flatMap.mpr ⟨aposC, hm, by decide⟩
      · exact List.mem_flatMap.mpr ⟨slashC, hm, by decide⟩
    have hasc2 : ∀ c ∈ sanitize_string isAlpha item.name, is_ascii c = true := by
      intro c hc
      obtain ⟨d, hd, hcd⟩ := List.mem_flatMap.mp (mem_sanitize hc)
      exact esc_full_ascii (hascii d (rust_trim_subset hd)) hcd
    have hvn : validate_name (sanitize_string isAlpha item.name) =
        .error (.InvalidCharacters ("Name".data)) :=
      validate_name_hash hasc2 (sanitize_length_le isAlpha item.name) hhash
    exact insert_validation_error hA (validate_item_name_error hvn)
  · intro isAlpha s item rows dupOk insertOk newId
    rcases insert_rows_cases isAlpha s
        { item with name := sanitize_string isAlpha item.name }
        rows dupOk insertOk newId with hc | ⟨hc, _⟩
    · exact Or.inl hc
    · exact Or.inr hc

theorem c10_witness :
    insert_item_command (fun _ => false) ⟨some ⟨1⟩, true⟩
        ⟨none, .movie, ("AC/DC".data), 8, true⟩ [] true true 1 =
      (⟨false, (ValidationError.InvalidCharacters ("Name".data)).toMessage, 0, none⟩,
        [], []) :=
  c10_double_sanitize_spec.2.1 (fun _ => false) ⟨some ⟨1⟩, true⟩
    ⟨none, .movie, ("AC/DC".data), 8, true⟩ [] true true 1 ⟨1⟩
    (by decide) (by decide) (by decide) (Or.inr (by decide))


/-! ## Claim C1 -/

/-- Without the flag set, `get_authenticated_pool` fails with
`AuthenticationRequired`. -/
theorem get_pool_unauth {s : AppState} (h : s.authenticated = false) :
    get_authenticated_pool s = .error .AuthenticationRequired := by
  unfold get_authenticated_pool
  rw [h]
  simp

/-- The canonical fail-fast response of an unauthenticated data op. -/
def authRequiredResp : DatabaseResponse :=
  ⟨false, ValidationError.AuthenticationRequired.toMessage, 0, none⟩

theorem list_unauth (isAlpha : Char → Bool) (s : AppState) (rows : List DbRow)
    (fetchOk : Bool) (h : s.authenticated = false) :
    get_all_watch_items isAlpha s rows fetchOk = (authRequiredResp, []) := by
  simp only [get_all_watch_items, get_pool_unauth h]
  rfl

theorem insert_unauth (isAlpha : Char → Bool) (s : AppState) (item : WatchListItem)
    (rows : List DbRow) (dupOk insertOk : Bool) (newId : Int)
    (h : s.authenticated = false) :
    insert_watch_item isAlpha s item rows dupOk insertOk newId =
      (authRequiredResp, rows, []) := by
  simp only [insert_watch_item, get_pool_unauth h]
  rfl

theorem delete_unauth (s : AppState) (ids : List Int) (rows : List DbRow)
    (delOk : Bool) (h : s.authenticated = false) :
    delete_watch_items s ids rows delOk = (authRequiredResp, rows, []) := by
  simp only [delete_watch_items, get_pool_unauth h]
  rfl

/-- The inductive heart of C1: from any state with the flag clear, a
sequence in which every `authenticate` fails keeps the flag clear and makes
every data operation return the `AuthenticationRequired` response with no
network call. -/
theorem exec_unauth (isAlpha : Char → Bool) (ops : List Op) :
    ∀ st : AppState × List DbRow,
    st.1.authenticated = false →
    (∀ op ∈ ops, ∀ u pw conn v, op = Op.auth u pw conn v →
      ∀ s', (authenticate s' u pw conn v).1.success = false) →
    ((exec isAlpha st ops).1.1.authenticated = false ∧
      ∀ out ∈ (exec isAlpha st ops).2, ∀ r calls, out = OpOut.dbOut r calls →
        r = authRequiredResp ∧ calls = []) := by
  induction ops with
  | nil =>
      intro st hs _
      exact ⟨hs, fun out hout => absurd hout (List.not_mem_nil out)⟩
  | cons op ops ih =>
      intro st hs hops
      obtain ⟨s, rows⟩ := st
      have hstep_state : (step isAlpha (s, rows) op).1.1.authenticated = false := by
        cases op with
        | auth u pw conn v =>
            have hfail := hops _ (by simp) u pw conn v rfl s
            show (authenticate s u pw conn v).2.1.authenticated = false
            rw [authenticate_fail_preserves_state hfail]
            exact hs
        | logoutOp => rfl
        | listOp fetchOk => exact hs
        | insertOp item dupOk insOk newId => exact hs
        | deleteOp ids delOk => exact hs
      have hout_ok : ∀ r calls, (step isAlpha (s, rows) op).2 = OpOut.dbOut r calls →
          r = authRequiredResp ∧ calls = [] := by
        cases op with
        | auth u pw conn v => intro r calls h; exact absurd h (by simp [step])
        | logoutOp => intro r calls h; exact absurd h (by simp [step])
        | listOp fetchOk =>
            intro r calls h
            have e := list_unauth isAlpha s rows fetchOk hs
            simp only [step, e] at h
            injection h with h1 h2
            exact ⟨h1.symm, h2.symm⟩
        | insertOp item dupOk insOk newId =>
            intro r calls h
            have e := insert_unauth isAlpha s item rows dupOk insOk newId hs
            simp only [step, e] at h
            injection h with h1 h2
            exact ⟨h1.symm, h2.symm⟩
        | deleteOp ids delOk =>
            intro r calls h
            have e := delete_unauth s ids rows delOk hs
            simp only [step, e] at h
            injection h with h1 h2
            exact ⟨h1.symm, h2.symm⟩
      have ihr := ih (step isAlpha (s, rows) op).1 hstep_state
        (fun op' hop' => hops op' (by simp [hop']))
      refine ⟨ihr.1, ?_⟩
      intro out hout r calls heq
      rcases List.mem_cons.mp hout with rfl | hmem
      · exact hout_ok r calls heq
      · exact ihr.2 out hmem r calls heq

/-- Claim C1. For every sequence of operations, starting from the initial
state over any stored rows, in which no `authenticate` call succeeds,
every `list_items`, `insert_item` or `delete_items` invocation returns the
structured response `success = false` with the `AuthenticationRequired`
message (`rows_affected = 0`, no data) and performs no network or storage
call. -/
theorem c1_unauthenticated_ops_fail_fast (isAlpha : Char → Bool)
    (rows : List DbRow) (ops : List Op)
    (hops : ∀ op ∈ ops, ∀ u pw conn v, op = Op.auth u pw conn v →
      ∀ s', (authenticate s' u pw conn v).1.success = false) :
    ∀ out ∈ (exec isAlpha (AppState.new, rows) ops).2, ∀ r calls,
      out = OpOut.dbOut r calls →
      r = authRequiredResp ∧ calls = [] :=
  (exec_unauth isAlpha ops (AppState.new, rows) rfl hops).2

theorem c1_witness :
    (exec (fun _ => false) (AppState.new, [])
        [Op.auth ("user".data) ("pw".data) (.error ()) true, Op.listOp true,
          Op.insertOp ⟨none, .movie, ("X".data), 5, true⟩ true true 1,
          Op.deleteOp [1] true]).2 =
      [OpOut.authOut ⟨false,
          ("Authentication failed: Invalid username or password".data)⟩ [.connect],
        OpOut.dbOut authRequiredResp [], OpOut.dbOut authRequiredResp [],
        OpOut.dbOut authRequiredResp []] ∧
    authRequiredResp = authRequiredResp ∧ ([] : List NetCall) = [] := by
  refine ⟨by decide, ?_⟩
  refine c1_unauthenticated_ops_fail_fast (fun _ => false) []
    [Op.auth ("user".data) ("pw".data) (.error ()) true, Op.listOp true,
      Op.insertOp ⟨none, .movie, ("X".data), 5, true⟩ true true 1,
      Op.deleteOp [1] true]
    ?_ (OpOut.dbOut authRequiredResp []) (by decide) authRequiredResp [] rfl
  intro op hop u pw conn v heq s'
  have : op = Op.auth ("user".data) ("pw".data) (.error ()) true ∨
      (op = Op.listOp true ∨
        op = Op.insertOp ⟨none, .movie, ("X".data), 5, true⟩ true true 1 ∨
        op = Op.deleteOp [1] true) := by simpa using hop
  rcases this with rfl | rfl | rfl | rfl
  · cases heq
    show (authenticate s' ("user".data) ("pw".data) (.error ()) true).1.success = false
    unfold authenticate
    rw [if_neg (by decide : ¬ (rust_trim ("user".data)).isEmpty = true),
      if_neg (by decide : ¬ (rust_trim ("pw".data)).isEmpty = true)]
  · exact Op.noConfusion heq
  · exact Op.noConfusion heq
  · exact Op.noConfusion heq
